import Mathlib

/-!
Verification development for the YOLO auto-annotation tool
(`project.py`, `ui.py`, `image_editor.py`, `dialogs.py`, `utils.py`,
`annotation.py`).

The Python sources are shallowly embedded: pixel coordinates and ratios
(Python floats) are modelled as rationals, JSON documents as an inductive
value type, Python dicts as update functions, Python sets as finite sets,
and the stateful batch loop as an explicit step function on a state record.
Each definition mirrors one function of the source, keeping the source's
control flow (clamping, swapping, nudging, skipping, early returns on
exceptions).
-/

namespace AutoLabel

/-! ## Annotation records

`Ann` mirrors the annotation dicts built in `ui.py:process_single_image`
(`{"box": (x1,y1,x2,y2), "confidence": conf, "class_id": cls, "class": name}`).
The Python `class` key is spelled `cls` here (`class` is a keyword).
-/

structure Ann where
  box : ℚ × ℚ × ℚ × ℚ
  confidence : Option ℚ
  class_id : Int
  cls : String
  deriving DecidableEq

/-! ## Geometry engine (`image_editor.py:ImageEditor.mouseMoveEvent`, lines 341-411) -/

/-- A bounding box `(x1, y1, x2, y2)` in original-image pixel coordinates. -/
structure Box where
  x1 : ℚ
  y1 : ℚ
  x2 : ℚ
  y2 : ℚ
  deriving DecidableEq

/-- The drag handle currently held (`ImageEditor.drag_handle`). -/
inductive Handle where
  | center
  | top_left
  | top_right
  | bottom_left
  | bottom_right
  deriving DecidableEq

/-- Display geometry used by `mouseMoveEvent`: image size (`image.shape`),
scale factors (`pixmap.width() / image.shape[1]` etc.) and the centering
offset of the pixmap inside the widget (`pixmap_x`, `pixmap_y`). -/
structure DragGeom where
  imgW : ℚ
  imgH : ℚ
  scaleX : ℚ
  scaleY : ℚ
  pixmapX : ℚ
  pixmapY : ℚ
  deriving DecidableEq

/-- The raw coordinate update of `mouseMoveEvent` (lines 344-380), before
clamping: `center` translates both corners by the pointer delta divided by
the scale; a corner handle moves only that corner to the pointer's
image-space position. -/
def rawDrag (g : DragGeom) (h : Handle) (b : Box) (lastPos pos : ℚ × ℚ) : Box :=
  match h with
  | .center =>
      let dx := (pos.1 - lastPos.1) * (1 / g.scaleX)
      let dy := (pos.2 - lastPos.2) * (1 / g.scaleY)
      ⟨b.x1 + dx, b.y1 + dy, b.x2 + dx, b.y2 + dy⟩
  | .top_left =>
      ⟨(pos.1 - g.pixmapX) * (1 / g.scaleX), (pos.2 - g.pixmapY) * (1 / g.scaleY), b.x2, b.y2⟩
  | .top_right =>
      ⟨b.x1, (pos.2 - g.pixmapY) * (1 / g.scaleY), (pos.1 - g.pixmapX) * (1 / g.scaleX), b.y2⟩
  | .bottom_left =>
      ⟨(pos.1 - g.pixmapX) * (1 / g.scaleX), b.y1, b.x2, (pos.2 - g.pixmapY) * (1 / g.scaleY)⟩
  | .bottom_right =>
      ⟨b.x1, b.y1, (pos.1 - g.pixmapX) * (1 / g.scaleX), (pos.2 - g.pixmapY) * (1 / g.scaleY)⟩

/-- `max(0, min(v, hi))` — the coordinate clamp of lines 387-390. -/
def clampQ (hi v : ℚ) : ℚ := max 0 (min v hi)

/-- The clamp / swap / nudge normalization of `mouseMoveEvent` lines 382-408:
clamp all four coordinates to the image, swap if `x1 > x2` (resp. `y1 > y2`),
and if a side collapsed to width 0, move the offending edge by 1 pixel
(outward when the edge sits at coordinate 0, inward otherwise). -/
def normalizeBox (w h : ℚ) (b : Box) : Box :=
  let cx1 := clampQ w b.x1
  let cy1 := clampQ h b.y1
  let cx2 := clampQ w b.x2
  let cy2 := clampQ h b.y2
  let sx1 := if cx2 < cx1 then cx2 else cx1
  let sx2 := if cx2 < cx1 then cx1 else cx2
  let sy1 := if cy2 < cy1 then cy2 else cy1
  let sy2 := if cy2 < cy1 then cy1 else cy2
  let fx1 := if sx1 = sx2 then (if 0 < sx1 then sx1 - 1 else sx1) else sx1
  let fx2 := if sx1 = sx2 then (if 0 < sx1 then sx2 else sx2 + 1) else sx2
  let fy1 := if sy1 = sy2 then (if 0 < sy1 then sy1 - 1 else sy1) else sy1
  let fy2 := if sy1 = sy2 then (if 0 < sy1 then sy2 else sy2 + 1) else sy2
  ⟨fx1, fy1, fx2, fy2⟩

/-- One `update_drag` (mouse-move) operation: raw coordinate update followed
by the clamp / swap / nudge normalization. -/
def updateDrag (g : DragGeom) (h : Handle) (b : Box) (lastPos pos : ℚ × ℚ) : Box :=
  normalizeBox g.imgW g.imgH (rawDrag g h b lastPos pos)

/-- One recorded drag step: the handle plus the previous and current pointer
positions in display coordinates. -/
structure DragStep where
  handle : Handle
  lastPos : ℚ × ℚ
  pos : ℚ × ℚ
  deriving DecidableEq

/-- A whole sequence of mouse-move updates applied to a box. -/
def runDrags (g : DragGeom) (b : Box) (steps : List DragStep) : Box :=
  steps.foldl (fun bx s => updateDrag g s.handle bx s.lastPos s.pos) b

/-- The box invariant claimed by the spec:
`0 ≤ x1 < x2 ≤ image_w` and `0 ≤ y1 < y2 ≤ image_h`. -/
def boxInvariant (w h : ℚ) (b : Box) : Prop :=
  0 ≤ b.x1 ∧ b.x1 < b.x2 ∧ b.x2 ≤ w ∧ 0 ≤ b.y1 ∧ b.y1 < b.y2 ∧ b.y2 ≤ h

instance (w h : ℚ) (b : Box) : Decidable (boxInvariant w h b) := by
  unfold boxInvariant
  infer_instance

/-- What the normalization actually guarantees: the lower bounds hold only up
to one pixel, because the 1-pixel nudge of a collapsed edge at a fractional
coordinate in `(0, 1)` can push the edge below 0. -/
def boxWeakInvariant (w h : ℚ) (b : Box) : Prop :=
  -1 < b.x1 ∧ b.x1 < b.x2 ∧ b.x2 ≤ w ∧ -1 < b.y1 ∧ b.y1 < b.y2 ∧ b.y2 ≤ h

/-! ## In-memory annotation store (`project.py:Project`)

`Project.processed_images` is a dict `{path: (image, annotations)}`; the
decoded image is modelled as `Option Unit` (present or `None`).
`Project._labeled_images` is a Python set of paths, modelled as a `Finset`.
-/

/-- The annotation-related in-memory state of a `Project`. -/
structure ProjAnn where
  processed_images : String → Option (Option Unit × List Ann)
  labeled_images : Finset String

/-- `Project.update_labeled_status` (project.py lines 160-165): insert the
path into the labeled set when it has annotations, otherwise remove it. -/
def update_labeled_status (s : ProjAnn) (p : String) (has : Bool) : ProjAnn :=
  if has then { s with labeled_images := insert p s.labeled_images }
  else { s with labeled_images := s.labeled_images.erase p }

/-- `Project.add_image_annotation` (project.py lines 173-177): replace the
per-image record, then update the labeled cache from the new list's length. -/
def addImageAnn (s : ProjAnn) (p : String) (img : Option Unit) (anns : List Ann) : ProjAnn :=
  update_labeled_status
    { s with processed_images := fun q => if q = p then some (img, anns) else s.processed_images q }
    p (anns.length > 0)

/-- `Project.remove_image_annotation` (project.py lines 179-183): delete the
record if present, then mark the path unlabeled. -/
def removeImageAnn (s : ProjAnn) (p : String) : ProjAnn :=
  if (s.processed_images p).isSome then
    update_labeled_status
      { s with processed_images := fun q => if q = p then none else s.processed_images q }
      p false
  else s

/-- The batch pipeline's commit of one detection result,
`ui.py:YOLOAnnotationTool.on_single_image_processed` lines 949 and 953-955:
store `(image, annotations)` in `processed_images` and add the path to
`_labeled_images` unconditionally (no emptiness check). -/
def batchCommit (s : ProjAnn) (p : String) (anns : List Ann) : ProjAnn :=
  { processed_images := fun q => if q = p then some (some (), anns) else s.processed_images q
    labeled_images := insert p s.labeled_images }

/-- The cache-consistency invariant of the spec: a path is in the
labeled-paths cache iff its annotation sequence in the per-image records is
non-empty. -/
def labeledInv (s : ProjAnn) : Prop :=
  ∀ p : String, p ∈ s.labeled_images ↔
    ∃ img anns, s.processed_images p = some (img, anns) ∧ anns ≠ []

/-- `Project.has_annotations` (project.py lines 202-215), result only: true
when the path is in the labeled cache, otherwise when a record exists with a
non-empty list (the self-healing cache write does not change the result). -/
def has_annotationsB (s : ProjAnn) (p : String) : Bool :=
  if p ∈ s.labeled_images then true
  else
    match s.processed_images p with
    | some (_, anns) => anns.length > 0
    | none => false

/-! ## Batch pipeline (`ui.py:YOLOAnnotationTool.process_next_image`)

The loop is driven by `QTimer.singleShot` re-arming `process_next_image`; we
model it as a step function on an explicit state. `det_log` records every
path on which `process_single_image` was attempted (the detector boundary).
The detector outcome is a function `String → Option (List Ann)`: `none`
models a per-image failure (unreadable file or inference exception), `some`
a successful result.
-/

/-- The session state of the batch loop: the project's path list, the
in-memory loop index `current_process_idx`, the annotation store, the
persisted resume cursor `last_processed_index`, and the instrumentation log
of detector attempts. -/
structure BatchS where
  image_paths : List String
  current_process_idx : Nat
  proj : ProjAnn
  last_processed_index : Nat
  det_log : List String

/-- One iteration of `process_next_image` (ui.py lines 748-814 plus the
success callback `on_single_image_processed` lines 939-981):
if the loop index is past the end nothing happens (`on_processing_finished`);
if the current path already has a record in `processed_images` it is skipped
(lines 780-786) — only the loop index advances; otherwise the detector runs:
on success the result is committed, `last_processed_index` is set to the
current index (line 950) and the loop index advances (line 980); on failure
only the loop index advances (line 813). -/
def stepBatch (det : String → Option (List Ann)) (s : BatchS) : BatchS :=
  if s.current_process_idx < s.image_paths.length then
    if (s.proj.processed_images (s.image_paths.getD s.current_process_idx "")).isSome then
      { s with current_process_idx := s.current_process_idx + 1 }
    else
      match det (s.image_paths.getD s.current_process_idx "") with
      | some anns =>
          { s with
            proj := batchCommit s.proj (s.image_paths.getD s.current_process_idx "") anns
            last_processed_index := s.current_process_idx
            current_process_idx := s.current_process_idx + 1
            det_log := s.det_log ++ [s.image_paths.getD s.current_process_idx ""] }
      | none =>
          { s with
            current_process_idx := s.current_process_idx + 1
            det_log := s.det_log ++ [s.image_paths.getD s.current_process_idx ""] }
  else s

/-- The whole batch run, iterated with explicit fuel; each step advances the
loop index by one, so `s.image_paths.length` fuel always reaches the end. -/
def runBatch (det : String → Option (List Ann)) : Nat → BatchS → BatchS
  | 0, s => s
  | fuel + 1, s =>
      if s.current_process_idx < s.image_paths.length then
        runBatch det fuel (stepBatch det s)
      else s

/-! ## Project persistence: `Project.save` (project.py lines 55-105)

`save` opens the project's own path with mode `'w'` — truncating whatever
was there — and then `json.dump` streams the serialized document into it.
The file system is a map from paths to contents; the serialized document is
the `text` argument (its exact JSON shape is irrelevant to the file
handling). A fault of `some k` means an I/O error was raised after `k`
characters were written, which the `except` clause turns into `False`.
-/

/-- `Project.save`: `none` path returns `False` without touching the file
system (line 59-61); otherwise the target is truncated and rewritten in
place; on a fault at position `k` the target holds the `k`-character prefix
of the new serialization and `save` returns `False`. -/
def project_save (pathSet : Option String) (text : String)
    (fs : String → Option String) (fault : Option Nat) :
    Bool × (String → Option String) :=
  match pathSet with
  | none => (false, fs)
  | some pth =>
      match fault with
      | none => (true, fun q => if q = pth then some text else fs q)
      | some k => (false, fun q => if q = pth then some (text.take k) else fs q)

/-! ## Dataset export split (`ui.py:export_all_results` lines 1254-1265 and
`dialogs.py:DatasetSplitDialog.get_ratios`) -/

/-- The ratio validation of `get_ratios` (dialogs.py lines 36-43), applied to
the ratios after division by 100: the sum must lie in `[0.99, 1.01]`. -/
def ratiosValid (t v te : ℚ) : Bool :=
  decide ((99 : ℚ) / 100 ≤ t + v + te) && decide (t + v + te ≤ (101 : ℚ) / 100)

/-- The split of the shuffled labeled list (ui.py lines 1256-1265):
`train_count = int(total * train_ratio)`, `val_count = int(total * val_ratio)`,
then `train = labeled[:tc]`, `val = labeled[tc:tc+vc]`, `test = labeled[tc+vc:]`.
Python `int()` truncates toward zero; for the non-negative products arising
from non-negative ratios this is the floor, which is what is modelled here
(negative ratios would trigger Python's negative-index slicing and are
outside this model). -/
def splitDataset (shuffled : List String) (t v : ℚ) :
    List String × List String × List String :=
  let total := shuffled.length
  let trainCount := (Int.floor ((total : ℚ) * t)).toNat
  let valCount := (Int.floor ((total : ℚ) * v)).toNat
  (shuffled.take trainCount, (shuffled.drop trainCount).take valCount,
    shuffled.drop (trainCount + valCount))

/-! ## YOLO label export (`ui.py:export_annotation_file` lines 1414-1463 and
`annotation.py:export_single_result` lines 279-296) -/

/-- One line of a YOLO label file: `class_id cx cy w h` (the 6-decimal string
formatting is not modelled; the numbers are). -/
structure YoloLine where
  class_id : Nat
  cx : ℚ
  cy : ℚ
  w : ℚ
  h : ℚ
  deriving DecidableEq

/-- The dict comprehension `{name: i for i, name in enumerate(class_names)}`
(ui.py lines 1302 and 1415): later duplicate names override earlier ones. -/
def buildNameToId : List String → Nat → String → Option Nat
  | [], _, _ => none
  | nm :: rest, i, q =>
      match buildNameToId rest (i + 1) q with
      | some j => some j
      | none => if q = nm then some i else none

/-- The coordinate clip of `export_annotation_file` lines 1429-1435: only
when some coordinate is out of range, clamp all four. -/
def clipCoords (w h : ℚ) (c : ℚ × ℚ × ℚ × ℚ) : ℚ × ℚ × ℚ × ℚ :=
  if c.1 < 0 ∨ c.2.1 < 0 ∨ w < c.2.2.1 ∨ h < c.2.2.2 then
    (max 0 c.1, max 0 c.2.1, min w c.2.2.1, min h c.2.2.2)
  else c

/-- `max(0.0, min(1.0, v))` (ui.py lines 1449-1452). -/
def clamp01 (v : ℚ) : ℚ := max 0 (min 1 v)

/-- The per-annotation body of the `export_annotation_file` write loop
(ui.py lines 1420-1463): clip the box, drop degenerate boxes, normalize to
center/size, and look the class id up in the current taxonomy — an unknown
class name is skipped, and the stored `class_id` field is never read. -/
def yoloLineOf (names : List String) (w h : ℚ) (a : Ann) : Option YoloLine :=
  let c := clipCoords w h a.box
  if c.2.2.1 ≤ c.1 ∨ c.2.2.2 ≤ c.2.1 then none
  else
    match buildNameToId names 0 a.cls with
    | none => none
    | some i =>
        some ⟨i, clamp01 ((c.1 + c.2.2.1) / 2 / w), clamp01 ((c.2.1 + c.2.2.2) / 2 / h),
          clamp01 ((c.2.2.1 - c.1) / w), clamp01 ((c.2.2.2 - c.2.1) / h)⟩

/-- The label lines written for one image by `export_annotation_file`. -/
def exportLines (names : List String) (w h : ℚ) (anns : List Ann) : List YoloLine :=
  anns.filterMap (yoloLineOf names w h)

/-- One line of the legacy exporter `annotation.py:export_single_result`
(lines 282-296): no clipping, no clamping, and
`class_id = project.class_names.index(cls)` when the name is present, else 0.
The stored `class_id` field is never read. -/
def legacyLineOf (names : List String) (w h : ℚ) (a : Ann) : YoloLine :=
  let cid := match List.findIdx? (fun nm => nm = a.cls) names with
    | some i => i
    | none => 0
  ⟨cid, (a.box.1 + a.box.2.2.1) / 2 / w, (a.box.2.1 + a.box.2.2.2) / 2 / h,
    (a.box.2.2.1 - a.box.1) / w, (a.box.2.2.2 - a.box.2.1) / h⟩

/-- The label lines written by `export_single_result` (every annotation
produces a line). -/
def legacyExportLines (names : List String) (w h : ℚ) (anns : List Ann) : List YoloLine :=
  anns.map (legacyLineOf names w h)

/-! ## Single-image inference (`ui.py:process_single_image` lines 857-884) -/

/-- One raw detection returned by the YOLO model: `box.xyxy[0]`,
`box.conf[0]`, and the model class index `int(box.cls[0])`. -/
structure Det where
  bx : ℚ × ℚ × ℚ × ℚ
  conf : ℚ
  cls : Nat
  deriving DecidableEq

/-- Python `int()` on a float/rational: truncation toward zero. -/
def pyInt (q : ℚ) : Int := if 0 ≤ q then Int.floor q else -Int.floor (-q)

/-- `getattr(self.current_project, 'confidence_threshold', 0.25)`
(ui.py line 861): `Project` never defines a `confidence_threshold`
attribute, so the `getattr` default 0.25 is always used. -/
def confidence_threshold : ℚ := 1 / 4

/-- The detection-to-annot conversion loop of `process_single_image`
(ui.py lines 863-884): drop detections below the confidence threshold, drop
class names outside the project taxonomy, and build annotation records with
integer-truncated box coordinates. `modelNames` is `result.names`. -/
def collectAnns (classNames : List String) (modelNames : Nat → String)
    (dets : List Det) : List Ann :=
  dets.filterMap (fun d =>
    if d.conf < confidence_threshold then none
    else
      let nm := modelNames d.cls
      if nm ∈ classNames then
        some ⟨((pyInt d.bx.1 : ℚ), (pyInt d.bx.2.1 : ℚ), (pyInt d.bx.2.2.1 : ℚ),
            (pyInt d.bx.2.2.2 : ℚ)),
          some d.conf, (d.cls : Int), nm⟩
      else none)

/-! ## Project persistence: `Project.load` (project.py lines 107-152)

`load` reads a JSON document and assigns its fields one by one inside a
`try` whose `except` clauses just return `False` — so a failure part-way
leaves every assignment already made. JSON values are modelled by `JVal`;
Python attributes are dynamically typed, so the loaded fields of the
in-memory project hold arbitrary `JVal`s.
-/

/-- A JSON value as produced by `json.load`. -/
inductive JVal where
  | jnull
  | jbool (b : Bool)
  | jnum (n : Int)
  | jstr (s : String)
  | jarr (xs : List JVal)
  | jobj (fs : List (String × JVal))

/-- Python `dict.get(k, dflt)` on a JSON object (keys of an object coming
out of `json.load` are unique). -/
def jget : List (String × JVal) → String → JVal → JVal
  | [], _, d => d
  | (k', v) :: rest, k, d => if k' = k then v else jget rest k d

/-- Python `len()` on a JSON value: defined for strings, arrays and objects,
a `TypeError` (`none`) otherwise. -/
def jlen : JVal → Option Nat
  | .jstr s => some s.length
  | .jarr xs => some xs.length
  | .jobj fs => some fs.length
  | _ => none

/-- Python truthiness of a JSON value. -/
def jtruthy : JVal → Bool
  | .jnull => false
  | .jbool b => b
  | .jnum n => n ≠ 0
  | .jstr s => s ≠ ""
  | .jarr xs => !xs.isEmpty
  | .jobj fs => !fs.isEmpty

/-- The eight predefined base colors of `utils.generate_distinct_colors`. -/
def baseColors : List (Int × Int × Int) :=
  [(255, 0, 0), (0, 255, 0), (0, 0, 255), (255, 255, 0),
   (255, 0, 255), (0, 255, 255), (255, 165, 0), (128, 0, 128)]

/-- `utils.generate_distinct_colors` (utils.py lines 6-52): empty for
`n ≤ 0`, the first `n` base colors for `n ≤ 8`, and for larger `n` one color
per index from the HSV pipeline. The HSV/random float conversion is the
`hsv` argument — the rest of the program only depends on the list and its
length. -/
def generate_distinct_colors (n : Nat) (hsv : Nat → Int × Int × Int) :
    List (Int × Int × Int) :=
  if n = 0 then []
  else if n ≤ 8 then baseColors.take n
  else (List.range n).map hsv

/-- A color list as it appears in the JSON document. -/
def colorsToJ (cs : List (Int × Int × Int)) : JVal :=
  .jarr (cs.map (fun c => .jarr [.jnum c.1, .jnum c.2.1, .jnum c.2.2]))

/-- The in-memory `Project` state touched by `load`: the file path, the
dynamically-typed loaded fields, and the annotation store. -/
structure ProjectL where
  path : Option String
  name : JVal
  image_dir : JVal
  model_path : JVal
  output_dir : JVal
  class_names : JVal
  class_colors : JVal
  last_processed_index : JVal
  image_paths : JVal
  processed_images : String → Option (Option Unit × JVal)
  labeled_images : Finset String

/-- What reading the project file can yield: the file is absent
(`os.path.exists` is false), `open()` raises, `json.load` raises
`JSONDecodeError`, or a parsed JSON value. -/
inductive FileRead where
  | missing
  | unreadable
  | badJson
  | content (j : JVal)

/-- The annotation-restoring loop of `load` (project.py lines 137-143):
entries whose image file exists (`ex`) are stored with image handle `none`;
the path joins the labeled set when its value is truthy with positive
length. A truthy value without a length (`len` raises mid-loop) aborts with
the partial stores built so far (`false`). -/
def loadAnnots (ex : String → Bool) :
    List (String × JVal) → (String → Option (Option Unit × JVal)) → Finset String →
    Bool × (String → Option (Option Unit × JVal)) × Finset String
  | [], f, lab => (true, f, lab)
  | (q, a) :: rest, f, lab =>
      if ex q then
        let f' := fun r => if r = q then some (none, a) else f r
        if jtruthy a then
          match jlen a with
          | none => (false, f', lab)
          | some l => loadAnnots ex rest f' (if 0 < l then insert q lab else lab)
        else loadAnnots ex rest f' lab
      else loadAnnots ex rest f lab

/-- `Project.load` (project.py lines 107-152), following the source order:
missing file fails untouched; a read/parse error fails after `self.path` was
already set (line 113); a non-object document fails on the first
`data.get`; otherwise the fields are assigned in order, the color-count
invariant is re-validated (regenerating colors on mismatch), the annotation
stores are reset, and the annotation map is folded in — each later failure
leaves every earlier assignment in place. -/
def loadProject (s : ProjectL) (p : String) (file : FileRead) (ex : String → Bool)
    (hsv : Nat → Int × Int × Int) : Bool × ProjectL :=
  match file with
  | .missing => (false, s)
  | .unreadable => (false, { s with path := some p })
  | .badJson => (false, { s with path := some p })
  | .content j =>
      let s1 := { s with path := some p }
      match j with
      | .jobj fs =>
          let s2 := { s1 with
            name := jget fs "name" (.jstr "未命名项目")
            image_dir := jget fs "image_dir" (.jstr "")
            model_path := jget fs "model_path" (.jstr "")
            output_dir := jget fs "output_dir" (.jstr "")
            class_names := jget fs "class_names" (.jarr []) }
          match jlen s2.class_names with
          | none => (false, s2)
          | some n =>
              let s3 := { s2 with
                class_colors := jget fs "class_colors"
                  (colorsToJ (generate_distinct_colors n hsv))
                last_processed_index := jget fs "last_processed_index" (.jnum 0)
                image_paths := jget fs "image_paths" (.jarr []) }
              match jlen s3.class_colors with
              | none => (false, s3)
              | some m =>
                  let s4 :=
                    if m ≠ n then
                      { s3 with class_colors := colorsToJ (generate_distinct_colors n hsv) }
                    else s3
                  let s5 := { s4 with
                    processed_images := fun _ => none
                    labeled_images := (∅ : Finset String) }
                  match jget fs "annotations" (.jobj []) with
                  | .jobj entries =>
                      let r := loadAnnots ex entries (fun _ => none) ∅
                      (r.1, { s5 with processed_images := r.2.1, labeled_images := r.2.2 })
                  | _ => (false, s5)
      | _ => (false, s1)

/-! ## Theorems -/

/-- Helper: after the clamp, the swap of lines 393-396 yields an ordered
pair inside `[0, w]`. -/
theorem axisSwap (w c1 c2 : ℚ) (h1l : 0 ≤ c1) (h2l : 0 ≤ c2) (h1u : c1 ≤ w) (h2u : c2 ≤ w) :
    0 ≤ (if c2 < c1 then c2 else c1) ∧
    (if c2 < c1 then c2 else c1) ≤ (if c2 < c1 then c1 else c2) ∧
    (if c2 < c1 then c1 else c2) ≤ w := by
  split_ifs with hc
  · exact ⟨h2l, le_of_lt hc, h1u⟩
  · exact ⟨h1l, le_of_not_lt hc, h2u⟩

/-- Helper: the nudge of lines 398-408 on an ordered pair in `[0, w]` yields
a strictly ordered pair in `(-1, w]`. -/
theorem axisNudge (w s1 s2 : ℚ) (hw : 1 ≤ w) (h0 : 0 ≤ s1) (h12 : s1 ≤ s2) (h2w : s2 ≤ w) :
    -1 < (if s1 = s2 then if 0 < s1 then s1 - 1 else s1 else s1) ∧
    (if s1 = s2 then if 0 < s1 then s1 - 1 else s1 else s1) <
      (if s1 = s2 then if 0 < s1 then s2 else s2 + 1 else s2) ∧
    (if s1 = s2 then if 0 < s1 then s2 else s2 + 1 else s2) ≤ w := by
  split_ifs with he hp
  · exact ⟨by linarith, by linarith, by linarith⟩
  · exact ⟨by linarith, by linarith, by linarith⟩
  · exact ⟨by linarith, lt_of_le_of_ne h12 he, h2w⟩

/-- Helper: a single clamp / swap / nudge normalization always yields the
weak invariant, for any input box, on an image of size at least 1×1. -/
theorem normalizeBox_weakInv (w h : ℚ) (hw : 1 ≤ w) (hh : 1 ≤ h) (b : Box) :
    boxWeakInvariant w h (normalizeBox w h b) := by
  have hx1l : (0 : ℚ) ≤ max 0 (min b.x1 w) := le_max_left _ _
  have hx2l : (0 : ℚ) ≤ max 0 (min b.x2 w) := le_max_left _ _
  have hy1l : (0 : ℚ) ≤ max 0 (min b.y1 h) := le_max_left _ _
  have hy2l : (0 : ℚ) ≤ max 0 (min b.y2 h) := le_max_left _ _
  have hx1u : max 0 (min b.x1 w) ≤ w := max_le (by linarith) (min_le_right _ _)
  have hx2u : max 0 (min b.x2 w) ≤ w := max_le (by linarith) (min_le_right _ _)
  have hy1u : max 0 (min b.y1 h) ≤ h := max_le (by linarith) (min_le_right _ _)
  have hy2u : max 0 (min b.y2 h) ≤ h := max_le (by linarith) (min_le_right _ _)
  have hx := axisSwap w _ _ hx1l hx2l hx1u hx2u
  have hx' := axisNudge w _ _ hw hx.1 hx.2.1 hx.2.2
  have hy := axisSwap h _ _ hy1l hy2l hy1u hy2u
  have hy' := axisNudge h _ _ hh hy.1 hy.2.1 hy.2.2
  simp only [normalizeBox, clampQ, boxWeakInvariant]
  exact ⟨hx'.1, hx'.2.1, hx'.2.2, hy'.1, hy'.2.1, hy'.2.2⟩

/-- Helper: every drag step re-establishes the weak invariant, so it is
preserved along any drag sequence. -/
theorem runDrags_weakInv_pres (g : DragGeom) (hw : 1 ≤ g.imgW) (hh : 1 ≤ g.imgH) :
    ∀ (steps : List DragStep) (b : Box),
      boxWeakInvariant g.imgW g.imgH b →
      boxWeakInvariant g.imgW g.imgH (runDrags g b steps)
  | [], _, hb => hb
  | s :: rest, b, _ =>
      runDrags_weakInv_pres g hw hh rest (updateDrag g s.handle b s.lastPos s.pos)
        (normalizeBox_weakInv g.imgW g.imgH hw hh _)

/-- C1 is FALSE as stated: starting from the box `(0, 0, 10, 10)` on a
100×100 image displayed at scale 2, dragging the top-left corner to display
x 1 (image x 1/2) and then the bottom-right corner to the same display x
collapses the width at coordinate 1/2, and the 1-pixel nudge moves `x1` to
−1/2, violating `0 ≤ x1`. -/
theorem c1_counterexample :
    boxInvariant 100 100 ⟨0, 0, 10, 10⟩ ∧
    (runDrags ⟨100, 100, 2, 2, 0, 0⟩ ⟨0, 0, 10, 10⟩
      [⟨.top_left, (0, 0), (1, 0)⟩, ⟨.bottom_right, (0, 0), (1, 40)⟩]).x1 < 0 := by
  refine ⟨by decide, ?_⟩
  norm_num [runDrags, updateDrag, rawDrag, normalizeBox, clampQ, List.foldl, max_def, min_def]

/-- C1 (amended): after any non-empty sequence of `update_drag` calls on an
image of size at least 1×1, the resulting box satisfies
`-1 < x1 < x2 ≤ image_w` and `-1 < y1 < y2 ≤ image_h`; the claimed lower
bound `0 ≤ x1` (resp. `0 ≤ y1`) can fail, but by less than one pixel, and
only when a side collapses at a fractional coordinate strictly between
0 and 1 so that the 1-pixel nudge pushes the edge below 0. -/
theorem c1_drag_sequence_weak_bounds (g : DragGeom) (b : Box) (steps : List DragStep)
    (hne : steps ≠ []) (hw : 1 ≤ g.imgW) (hh : 1 ≤ g.imgH) :
    boxWeakInvariant g.imgW g.imgH (runDrags g b steps) := by
  cases steps with
  | nil => exact absurd rfl hne
  | cons s rest =>
      exact runDrags_weakInv_pres g hw hh rest (updateDrag g s.handle b s.lastPos s.pos)
        (normalizeBox_weakInv g.imgW g.imgH hw hh _)

/-- C2 is a code bug in `Project.save`: the target file is opened with mode
`'w'` (truncating the previously valid contents) and the new serialization
is streamed directly into it; if the write fails after `k` characters, save
returns `False` but the file now holds only a `k`-character prefix of the
new document — here a fault at position 0 replaces the valid prior contents
`"OLDDOC"` with the empty string, so the prior contents are no longer
readable. -/
theorem c2_save_partial_write_corrupts :
    (project_save (some "proj.yap") "NEWDOC"
      (fun q => if q = "proj.yap" then some "OLDDOC" else none) (some 0)).1 = false ∧
    (project_save (some "proj.yap") "NEWDOC"
      (fun q => if q = "proj.yap" then some "OLDDOC" else none) (some 0)).2 "proj.yap" =
        some "" ∧
    (some "" : Option String) ≠ some "OLDDOC" := by
  refine ⟨rfl, ?_, by decide⟩
  simp [project_save]
  rfl

/-- C3 is FALSE as stated: from a state satisfying the cache equivalence,
one batch commit of an EMPTY detection result (`on_single_image_processed`
adds the path to `_labeled_images` unconditionally, ui.py line 955) puts
the path into the labeled cache while its annotation list is empty. -/
theorem c3_counterexample :
    labeledInv ⟨fun _ => none, (∅ : Finset String)⟩ ∧
    ¬ labeledInv (batchCommit ⟨fun _ => none, (∅ : Finset String)⟩ "img1.jpg" []) := by
  constructor
  · intro p
    simp [labeledInv]
  · intro hinv
    have h := (hinv "img1.jpg").mp (by simp [batchCommit])
    obtain ⟨img, anns, heq, hne⟩ := h
    simp [batchCommit] at heq
    exact hne heq.2

/-- Helper: `add_image_annotation` preserves the cache equivalence. -/
theorem labeledInv_add (s : ProjAnn) (hs : labeledInv s) (p : String) (img : Option Unit)
    (anns : List Ann) : labeledInv (addImageAnn s p img anns) := by
  intro q
  by_cases hq : q = p
  · subst hq
    by_cases ha : anns = []
    · subst ha
      simp [addImageAnn, update_labeled_status, Finset.mem_erase]
    · simp [addImageAnn, update_labeled_status, List.length_pos, ha]
      exact ⟨img, anns, ⟨rfl, rfl⟩, ha⟩
  · by_cases ha : anns = [] <;>
      simp [addImageAnn, update_labeled_status, List.length_pos, ha, hq,
        Finset.mem_insert, Finset.mem_erase, hs q]

/-- Helper: `remove_image_annotation` preserves the cache equivalence. -/
theorem labeledInv_remove (s : ProjAnn) (hs : labeledInv s) (p : String) :
    labeledInv (removeImageAnn s p) := by
  intro q
  by_cases hrec : (s.processed_images p).isSome
  · by_cases hq : q = p
    · subst hq
      simp [removeImageAnn, hrec, update_labeled_status, Finset.mem_erase]
    · simp [removeImageAnn, hrec, update_labeled_status, hq, Finset.mem_erase, hs q]
  · simp [removeImageAnn, hrec]
    exact hs q

/-- Helper: the batch commit preserves the cache equivalence when the
committed annotation list is non-empty. -/
theorem labeledInv_commit (s : ProjAnn) (hs : labeledInv s) (p : String)
    (anns : List Ann) (hne : anns ≠ []) : labeledInv (batchCommit s p anns) := by
  intro q
  by_cases hq : q = p
  · subst hq
    simp [batchCommit, hne]
    exact ⟨some (), anns, ⟨rfl, rfl⟩, hne⟩
  · simp [batchCommit, hq, Finset.mem_insert, hs q]

/-- C3 (amended): starting from a state satisfying the cache equivalence,
the Project-level mutators `add_image_annotation` and
`remove_image_annotation` preserve it, but the batch pipeline's commit
(`on_single_image_processed`) preserves it only when the committed
annotation list is non-empty — it adds the path to the labeled cache
unconditionally, so committing an empty detection result breaks the
equivalence. -/
theorem c3_labeled_cache_ops (s : ProjAnn) (hs : labeledInv s) (p : String)
    (img : Option Unit) (anns : List Ann) :
    labeledInv (addImageAnn s p img anns) ∧
    labeledInv (removeImageAnn s p) ∧
    (anns ≠ [] → labeledInv (batchCommit s p anns)) :=
  ⟨labeledInv_add s hs p img anns, labeledInv_remove s hs p,
    fun hne => labeledInv_commit s hs p anns hne⟩

/-- Witness for `c3_labeled_cache_ops` at a concrete state. -/
theorem c3_witness :
    labeledInv (addImageAnn ⟨fun _ => none, (∅ : Finset String)⟩ "a.jpg" none []) :=
  (c3_labeled_cache_ops ⟨fun _ => none, (∅ : Finset String)⟩
    (by intro p; simp [labeledInv]) "a.jpg" none []).1

/-- Helper: when the loop is past the end, `process_next_image` changes
nothing. -/
theorem stepBatch_end (det : String → Option (List Ann)) (s : BatchS)
    (h1 : ¬ s.current_process_idx < s.image_paths.length) : stepBatch det s = s := by
  unfold stepBatch
  rw [if_neg h1]

/-- Helper: the skip branch of `process_next_image` (ui.py lines 780-786). -/
theorem stepBatch_skip (det : String → Option (List Ann)) (s : BatchS)
    (h1 : s.current_process_idx < s.image_paths.length)
    (h2 : (s.proj.processed_images (s.image_paths.getD s.current_process_idx "")).isSome) :
    stepBatch det s = { s with current_process_idx := s.current_process_idx + 1 } := by
  unfold stepBatch
  rw [if_pos h1, if_pos h2]

/-- Helper: the success branch of `process_next_image`. -/
theorem stepBatch_success (det : String → Option (List Ann)) (s : BatchS) (anns : List Ann)
    (h1 : s.current_process_idx < s.image_paths.length)
    (h2 : s.proj.processed_images (s.image_paths.getD s.current_process_idx "") = none)
    (hdet : det (s.image_paths.getD s.current_process_idx "") = some anns) :
    stepBatch det s =
      { s with
        proj := batchCommit s.proj (s.image_paths.getD s.current_process_idx "") anns
        last_processed_index := s.current_process_idx
        current_process_idx := s.current_process_idx + 1
        det_log := s.det_log ++ [s.image_paths.getD s.current_process_idx ""] } := by
  unfold stepBatch
  rw [if_pos h1, if_neg (by rw [h2]; simp), hdet]

/-- Helper: the failure branch of `process_next_image` (ui.py lines 800-814). -/
theorem stepBatch_fail (det : String → Option (List Ann)) (s : BatchS)
    (h1 : s.current_process_idx < s.image_paths.length)
    (h2 : s.proj.processed_images (s.image_paths.getD s.current_process_idx "") = none)
    (hdet : det (s.image_paths.getD s.current_process_idx "") = none) :
    stepBatch det s =
      { s with
        current_process_idx := s.current_process_idx + 1
        det_log := s.det_log ++ [s.image_paths.getD s.current_process_idx ""] } := by
  unfold stepBatch
  rw [if_pos h1, if_neg (by rw [h2]; simp), hdet]

/-- Helper: a batch step never removes an annotation record. -/
theorem stepBatch_processed_mono (det : String → Option (List Ann)) (s : BatchS) (q : String)
    (h : (s.proj.processed_images q).isSome) :
    ((stepBatch det s).proj.processed_images q).isSome := by
  by_cases h1 : s.current_process_idx < s.image_paths.length
  · by_cases h2 : (s.proj.processed_images (s.image_paths.getD s.current_process_idx "")).isSome
    · rw [stepBatch_skip det s h1 h2]
      exact h
    · rw [Option.not_isSome_iff_eq_none] at h2
      cases hdet : det (s.image_paths.getD s.current_process_idx "") with
      | some anns =>
          rw [stepBatch_success det s anns h1 h2 hdet]
          by_cases hq : q = s.image_paths.getD s.current_process_idx ""
          · simp only [batchCommit]
            rw [if_pos hq]
            rfl
          · simp only [batchCommit]
            rw [if_neg hq]
            exact h
      | none =>
          rw [stepBatch_fail det s h1 h2 hdet]
          exact h
  · rw [stepBatch_end det s h1]
    exact h

/-- Helper: a batch step never attempts the detector on a path that already
has a record. -/
theorem stepBatch_log_pres (det : String → Option (List Ann)) (s : BatchS) (p : String)
    (hrec : (s.proj.processed_images p).isSome) (hlog : p ∉ s.det_log) :
    p ∉ (stepBatch det s).det_log := by
  by_cases h1 : s.current_process_idx < s.image_paths.length
  · by_cases h2 : (s.proj.processed_images (s.image_paths.getD s.current_process_idx "")).isSome
    · rw [stepBatch_skip det s h1 h2]
      exact hlog
    · rw [Option.not_isSome_iff_eq_none] at h2
      have hne : p ≠ s.image_paths.getD s.current_process_idx "" := by
        intro he
        rw [he, h2] at hrec
        simp at hrec
      cases hdet : det (s.image_paths.getD s.current_process_idx "") with
      | some anns =>
          rw [stepBatch_success det s anns h1 h2 hdet]
          simp only [List.mem_append, List.mem_singleton]
          exact not_or.mpr ⟨hlog, hne⟩
      | none =>
          rw [stepBatch_fail det s h1 h2 hdet]
          simp only [List.mem_append, List.mem_singleton]
          exact not_or.mpr ⟨hlog, hne⟩
  · rw [stepBatch_end det s h1]
    exact hlog

/-- Helper: a whole batch run never attempts the detector on a path whose
record predates the run. -/
theorem runBatch_no_call_on_processed (det : String → Option (List Ann)) :
    ∀ (fuel : Nat) (s : BatchS) (p : String),
      (s.proj.processed_images p).isSome → p ∉ s.det_log →
      p ∉ (runBatch det fuel s).det_log
  | 0, _, _, _, hlog => hlog
  | fuel + 1, s, p, hrec, hlog => by
      unfold runBatch
      by_cases h1 : s.current_process_idx < s.image_paths.length
      · rw [if_pos h1]
        exact runBatch_no_call_on_processed det fuel (stepBatch det s) p
          (stepBatch_processed_mono det s p hrec)
          (stepBatch_log_pres det s p hrec hlog)
      · rw [if_neg h1]
        exact hlog

/-- C4: when the current path already has a cached annotation record, one
batch step is exactly "advance the loop index" — the detector is not
invoked and no other state changes; and over any whole run with any amount
of fuel, the detector is never invoked on a path that had a record (in
particular an already-labeled image) when the run started. Hence a second
full run over an unchanged project performs zero detector invocations on
already-labeled images. -/
theorem c4_skip_cached_no_detector (det : String → Option (List Ann)) (s : BatchS) :
    (s.current_process_idx < s.image_paths.length →
      (s.proj.processed_images (s.image_paths.getD s.current_process_idx "")).isSome →
      stepBatch det s = { s with current_process_idx := s.current_process_idx + 1 }) ∧
    (∀ p fuel, (s.proj.processed_images p).isSome → p ∉ s.det_log →
      p ∉ (runBatch det fuel s).det_log) := by
  constructor
  · intro h1 h2
    exact stepBatch_skip det s h1 h2
  · intro p fuel hrec hlog
    exact runBatch_no_call_on_processed det fuel s p hrec hlog

/-- Witness for `c4_skip_cached_no_detector` at a concrete one-image
project whose single image already has a record. -/
theorem c4_witness :
    stepBatch (fun _ => some [])
      ⟨["a"], 0, ⟨fun q => if q = "a" then some (none, []) else none, ∅⟩, 0, []⟩ =
      { image_paths := ["a"], current_process_idx := 1,
        proj := ⟨fun q => if q = "a" then some (none, []) else none, ∅⟩,
        last_processed_index := 0, det_log := [] } ∧
    "a" ∉ (runBatch (fun _ => some []) 1
      ⟨["a"], 0, ⟨fun q => if q = "a" then some (none, []) else none, ∅⟩, 0, []⟩).det_log :=
  ⟨(c4_skip_cached_no_detector (fun _ => some [])
      ⟨["a"], 0, ⟨fun q => if q = "a" then some (none, []) else none, ∅⟩, 0, []⟩).1
      (by decide) rfl,
    (c4_skip_cached_no_detector (fun _ => some [])
      ⟨["a"], 0, ⟨fun q => if q = "a" then some (none, []) else none, ∅⟩, 0, []⟩).2
      "a" 1 rfl (by simp)⟩

/-- C6 is FALSE as stated: a successfully processed image at index 0 leaves
`last_processed_index = 0` (the index OF the image, set at ui.py line 950),
not the following index 1, even though the loop advanced past it. -/
theorem c6_counterexample :
    (stepBatch (fun _ => some []) ⟨["a"], 0, ⟨fun _ => none, ∅⟩, 0, []⟩).current_process_idx
        = 0 + 1 ∧
    (stepBatch (fun _ => some []) ⟨["a"], 0, ⟨fun _ => none, ∅⟩, 0, []⟩).last_processed_index
        = 0 ∧
    (0 : Nat) ≠ 0 + 1 :=
  ⟨rfl, rfl, by decide⟩

/-- C6 (amended): after each image handled by the batch loop the in-memory
loop index advances to the following index, but the persisted resume cursor
`last_processed_index` is updated only on success, and then to the index OF
the processed image, not the index following it; skipped and failed images
leave the cursor unchanged. -/
theorem c6_cursor_update_behavior (det : String → Option (List Ann)) (s : BatchS)
    (hlt : s.current_process_idx < s.image_paths.length) :
    ((s.proj.processed_images (s.image_paths.getD s.current_process_idx "")).isSome →
      (stepBatch det s).last_processed_index = s.last_processed_index ∧
      (stepBatch det s).current_process_idx = s.current_process_idx + 1) ∧
    (∀ anns, s.proj.processed_images (s.image_paths.getD s.current_process_idx "") = none →
      det (s.image_paths.getD s.current_process_idx "") = some anns →
      (stepBatch det s).last_processed_index = s.current_process_idx ∧
      (stepBatch det s).current_process_idx = s.current_process_idx + 1) ∧
    (s.proj.processed_images (s.image_paths.getD s.current_process_idx "") = none →
      det (s.image_paths.getD s.current_process_idx "") = none →
      (stepBatch det s).last_processed_index = s.last_processed_index ∧
      (stepBatch det s).current_process_idx = s.current_process_idx + 1) := by
  refine ⟨?_, ?_, ?_⟩
  · intro h2
    rw [stepBatch_skip det s hlt h2]
    exact ⟨rfl, rfl⟩
  · intro anns h2 hdet
    rw [stepBatch_success det s anns hlt h2 hdet]
    exact ⟨rfl, rfl⟩
  · intro h2 hdet
    rw [stepBatch_fail det s hlt h2 hdet]
    exact ⟨rfl, rfl⟩

/-- Witness for `c6_cursor_update_behavior`: a successful step at index 0
of a one-image project sets the cursor to 0 and the loop index to 1. -/
theorem c6_witness :
    (stepBatch (fun _ => some []) ⟨["a"], 0, ⟨fun _ => none, ∅⟩, 5, []⟩).last_processed_index
        = 0 ∧
    (stepBatch (fun _ => some []) ⟨["a"], 0, ⟨fun _ => none, ∅⟩, 5, []⟩).current_process_idx
        = 0 + 1 :=
  (c6_cursor_update_behavior (fun _ => some [])
    ⟨["a"], 0, ⟨fun _ => none, ∅⟩, 5, []⟩ (by decide)).2.1 [] rfl rfl

/-- Witness for `c1_drag_sequence_weak_bounds` at a concrete drag. -/
theorem c1_witness :
    ([⟨Handle.top_left, ((0 : ℚ), (0 : ℚ)), ((1 : ℚ), (0 : ℚ))⟩] : List DragStep) ≠ [] ∧
    (1 : ℚ) ≤ 100 ∧
    boxWeakInvariant 100 100 (runDrags ⟨100, 100, 2, 2, 0, 0⟩ ⟨0, 0, 10, 10⟩
      [⟨Handle.top_left, (0, 0), (1, 0)⟩]) :=
  ⟨by decide, by norm_num,
    c1_drag_sequence_weak_bounds ⟨100, 100, 2, 2, 0, 0⟩ ⟨0, 0, 10, 10⟩
      [⟨Handle.top_left, (0, 0), (1, 0)⟩] (by decide) (by norm_num) (by norm_num)⟩

/-- C7 is FALSE as stated for some validated ratios: the ratios
`(1.0, 0.01, 0.0)` (user input "100", "1", "0") pass validation (their sum
1.01 lies in `[0.99, 1.01]`), but on 100 labeled images the val split gets
`0` images, not `floor(100 * 0.01) = 1`, because the train slice already
consumed the whole list. -/
theorem c7_counterexample :
    ratiosValid 1 (1 / 100) 0 = true ∧
    ((splitDataset ((List.range 100).map toString) 1 (1 / 100)).2.1).length = 0 ∧
    (Int.floor (((((List.range 100).map toString).length : ℚ)) * (1 / 100))).toNat = 1 := by
  refine ⟨?_, ?_, ?_⟩
  · simp only [ratiosValid, Bool.and_eq_true, decide_eq_true_eq]
    norm_num
  · simp [splitDataset]
  · norm_num

/-- C7 (amended): for non-negative ratios with `train_ratio + val_ratio ≤ 1`
(which holds for all intended inputs but not for every validated input, as
the counterexample shows), the split of the shuffled labeled list assigns
the first `floor(n*train_ratio)` images to train, the next
`floor(n*val_ratio)` to val, and all remaining images to test; the three
splits concatenate back to the whole list (so they cover it) and are
pairwise disjoint when the list has no duplicates, and test absorbs the
rounding remainder. In particular n=100 with (0.7,0.15,0.15) gives 70/15/15
and n=10 with (0.33,0.33,0.34) gives 3/3/4 (see the witness). -/
theorem c7_split_partition (shuffled : List String) (t v : ℚ)
    (ht : 0 ≤ t) (hv : 0 ≤ v) (hsum : t + v ≤ 1) (hnd : shuffled.Nodup) :
    (splitDataset shuffled t v).1 ++ (splitDataset shuffled t v).2.1 ++
        (splitDataset shuffled t v).2.2 = shuffled ∧
    (splitDataset shuffled t v).1.length = (Int.floor ((shuffled.length : ℚ) * t)).toNat ∧
    (splitDataset shuffled t v).2.1.length = (Int.floor ((shuffled.length : ℚ) * v)).toNat ∧
    (splitDataset shuffled t v).2.2.length =
      shuffled.length - (Int.floor ((shuffled.length : ℚ) * t)).toNat -
        (Int.floor ((shuffled.length : ℚ) * v)).toNat ∧
    (splitDataset shuffled t v).1.Disjoint (splitDataset shuffled t v).2.1 ∧
    (splitDataset shuffled t v).1.Disjoint (splitDataset shuffled t v).2.2 ∧
    (splitDataset shuffled t v).2.1.Disjoint (splitDataset shuffled t v).2.2 := by
  have e1 : (splitDataset shuffled t v).1 =
      shuffled.take (Int.floor ((shuffled.length : ℚ) * t)).toNat := rfl
  have e2 : (splitDataset shuffled t v).2.1 =
      (shuffled.drop (Int.floor ((shuffled.length : ℚ) * t)).toNat).take
        (Int.floor ((shuffled.length : ℚ) * v)).toNat := rfl
  have e3 : (splitDataset shuffled t v).2.2 =
      shuffled.drop ((Int.floor ((shuffled.length : ℚ) * t)).toNat +
        (Int.floor ((shuffled.length : ℚ) * v)).toNat) := rfl
  have hn0 : (0 : ℚ) ≤ (shuffled.length : ℚ) := by positivity
  have hfl_t : (0 : ℤ) ≤ Int.floor ((shuffled.length : ℚ) * t) :=
    Int.floor_nonneg.mpr (mul_nonneg hn0 ht)
  have hfl_v : (0 : ℤ) ≤ Int.floor ((shuffled.length : ℚ) * v) :=
    Int.floor_nonneg.mpr (mul_nonneg hn0 hv)
  have hq1 : (((Int.floor ((shuffled.length : ℚ) * t)).toNat : ℚ)) ≤ (shuffled.length : ℚ) * t := by
    have : (((Int.floor ((shuffled.length : ℚ) * t)).toNat : ℤ) : ℚ) =
        ((Int.floor ((shuffled.length : ℚ) * t) : ℤ) : ℚ) := by
      exact_mod_cast congrArg (fun z : ℤ => (z : ℚ)) (Int.toNat_of_nonneg hfl_t)
    calc (((Int.floor ((shuffled.length : ℚ) * t)).toNat : ℚ))
        = ((Int.floor ((shuffled.length : ℚ) * t) : ℤ) : ℚ) := by push_cast at this ⊢; exact this
      _ ≤ (shuffled.length : ℚ) * t := Int.floor_le _
  have hq2 : (((Int.floor ((shuffled.length : ℚ) * v)).toNat : ℚ)) ≤ (shuffled.length : ℚ) * v := by
    have : (((Int.floor ((shuffled.length : ℚ) * v)).toNat : ℤ) : ℚ) =
        ((Int.floor ((shuffled.length : ℚ) * v) : ℤ) : ℚ) := by
      exact_mod_cast congrArg (fun z : ℤ => (z : ℚ)) (Int.toNat_of_nonneg hfl_v)
    calc (((Int.floor ((shuffled.length : ℚ) * v)).toNat : ℚ))
        = ((Int.floor ((shuffled.length : ℚ) * v) : ℤ) : ℚ) := by push_cast at this ⊢; exact this
      _ ≤ (shuffled.length : ℚ) * v := Int.floor_le _
  have hmul : (shuffled.length : ℚ) * t + (shuffled.length : ℚ) * v ≤ (shuffled.length : ℚ) := by
    have h1 := mul_le_mul_of_nonneg_left hsum hn0
    rw [mul_add] at h1
    linarith
  have htcvc : (Int.floor ((shuffled.length : ℚ) * t)).toNat +
      (Int.floor ((shuffled.length : ℚ) * v)).toNat ≤ shuffled.length := by
    have : (((Int.floor ((shuffled.length : ℚ) * t)).toNat +
        (Int.floor ((shuffled.length : ℚ) * v)).toNat : ℕ) : ℚ) ≤ (shuffled.length : ℚ) := by
      push_cast
      linarith
    exact_mod_cast this
  have hcover : (splitDataset shuffled t v).1 ++ (splitDataset shuffled t v).2.1 ++
      (splitDataset shuffled t v).2.2 = shuffled := by
    rw [e1, e2, e3, List.append_assoc]
    have hdd : shuffled.drop ((Int.floor ((shuffled.length : ℚ) * t)).toNat +
        (Int.floor ((shuffled.length : ℚ) * v)).toNat) =
        (shuffled.drop (Int.floor ((shuffled.length : ℚ) * t)).toNat).drop
          (Int.floor ((shuffled.length : ℚ) * v)).toNat := by
      rw [List.drop_drop]
    rw [hdd, List.take_append_drop, List.take_append_drop]
  refine ⟨hcover, ?_, ?_, ?_, ?_, ?_, ?_⟩
  · rw [e1, List.length_take]
    omega
  · rw [e2, List.length_take, List.length_drop]
    omega
  · rw [e3, List.length_drop]
    omega
  · have hnd2 := hcover ▸ hnd
    exact (List.nodup_append.mp (List.nodup_append.mp hnd2).1).2.2
  · have hnd2 := hcover ▸ hnd
    have hA := (List.nodup_append.mp hnd2).2.2
    intro x hx1 hx2
    exact hA (List.mem_append_left _ hx1) hx2
  · have hnd2 := hcover ▸ hnd
    have hA := (List.nodup_append.mp hnd2).2.2
    intro x hx1 hx2
    exact hA (List.mem_append_right _ hx1) hx2

/-- Witness for `c7_split_partition` at the two sizing cases named by the
spec: 100 images with ratios (0.7, 0.15) give 70/15/15, and 10 images with
ratios (0.33, 0.33) give 3/3/4. -/
theorem c7_witness :
    (splitDataset ((List.range 100).map toString) (7 / 10) (3 / 20)).1.length = 70 ∧
    (splitDataset ((List.range 100).map toString) (7 / 10) (3 / 20)).2.1.length = 15 ∧
    (splitDataset ((List.range 100).map toString) (7 / 10) (3 / 20)).2.2.length = 15 ∧
    (splitDataset ((List.range 10).map toString) (33 / 100) (33 / 100)).1.length = 3 ∧
    (splitDataset ((List.range 10).map toString) (33 / 100) (33 / 100)).2.1.length = 3 ∧
    (splitDataset ((List.range 10).map toString) (33 / 100) (33 / 100)).2.2.length = 4 := by
  have h1 := c7_split_partition ((List.range 100).map toString) (7 / 10) (3 / 20)
    (by norm_num) (by norm_num) (by norm_num) (by decide)
  have h2 := c7_split_partition ((List.range 10).map toString) (33 / 100) (33 / 100)
    (by norm_num) (by norm_num) (by norm_num) (by decide)
  refine ⟨?_, ?_, ?_, ?_, ?_, ?_⟩
  · rw [h1.2.1]; norm_num; all_goals decide
  · rw [h1.2.2.1]; norm_num; all_goals decide
  · rw [h1.2.2.2.1]; norm_num; all_goals decide
  · rw [h2.2.1]; norm_num; all_goals decide
  · rw [h2.2.2.1]; norm_num; all_goals decide
  · rw [h2.2.2.2.1]; norm_num; all_goals decide

/-- Helper: a name that is absent from the taxonomy gets no id from the
name-to-id dict. -/
theorem buildNameToId_not_mem (q : String) :
    ∀ (l : List String) (i : Nat), q ∉ l → buildNameToId l i q = none := by
  intro l
  induction l with
  | nil => intro i _; rfl
  | cons nm rest ih =>
      intro i hq
      have h1 : q ∉ rest := fun h => hq (List.mem_cons_of_mem _ h)
      have h2 : q ≠ nm := fun h => hq (h ▸ List.mem_cons_self _ _)
      simp [buildNameToId, ih (i + 1) h1, h2]

/-- Helper: on a duplicate-free taxonomy, the dict lookup is the index of
the first (= only) occurrence of the name. -/
theorem buildNameToId_eq_findIdx (q : String) :
    ∀ (l : List String), l.Nodup → ∀ (i : Nat),
      buildNameToId l i q = (List.findIdx? (fun nm => nm = q) l).map (fun k => i + k) := by
  intro l
  induction l with
  | nil => intro _ i; rfl
  | cons nm rest ih =>
      intro hnd i
      have hnm : nm ∉ rest := (List.nodup_cons.mp hnd).1
      have hrest : rest.Nodup := (List.nodup_cons.mp hnd).2
      by_cases hq : q = nm
      · subst hq
        rw [buildNameToId, buildNameToId_not_mem q rest (i + 1) hnm]
        simp [List.findIdx?_cons]
      · rw [buildNameToId, ih hrest (i + 1)]
        cases hfi : List.findIdx? (fun nm' => nm' = q) rest with
        | some k =>
            simp [List.findIdx?_cons, hfi, Ne.symm hq, hq]
            omega
        | none =>
            simp [List.findIdx?_cons, hfi, Ne.symm hq, hq]

/-- Helper: a member of the list has a first index. -/
theorem findIdx_isSome_of_mem (q : String) :
    ∀ (l : List String), q ∈ l → (List.findIdx? (fun nm => nm = q) l).isSome := by
  intro l
  induction l with
  | nil => intro h; simp at h
  | cons nm rest ih =>
      intro h
      by_cases hq : nm = q
      · simp [List.findIdx?_cons, hq]
      · have : q ∈ rest := by
          rcases List.mem_cons.mp h with h1 | h1
          · exact absurd h1.symm hq
          · exact h1
        obtain ⟨k, hk⟩ := Option.isSome_iff_exists.mp (ih this)
        simp [List.findIdx?_cons, hq, hk]

/-- C10: every annotation produced by the `process_single_image` detection
loop carries a confidence, and that confidence is at least the default
threshold 0.25 — detections below it are dropped before the taxonomy-name
filter is even consulted. -/
theorem c10_confidence_threshold (classNames : List String) (modelNames : Nat → String)
    (dets : List Det) (a : Ann) (ha : a ∈ collectAnns classNames modelNames dets) :
    ∃ c, a.confidence = some c ∧ confidence_threshold ≤ c := by
  simp only [collectAnns, List.mem_filterMap] at ha
  obtain ⟨d, hd, hsome⟩ := ha
  by_cases hc : d.conf < confidence_threshold
  · simp [hc] at hsome
  · by_cases hm : modelNames d.cls ∈ classNames
    · simp [hc, hm] at hsome
      subst hsome
      exact ⟨d.conf, rfl, le_of_not_lt hc⟩
    · simp [hc, hm] at hsome

/-- Witness for `c10_confidence_threshold` at a concrete detection of
confidence 1/2. -/
theorem c10_witness :
    ∃ c, (Ann.mk ((0 : ℚ), (0 : ℚ), (1 : ℚ), (1 : ℚ)) (some (1 / 2)) 0 "person").confidence =
        some c ∧ confidence_threshold ≤ c :=
  c10_confidence_threshold ["person"] (fun _ => "person") [⟨(0, 0, 1, 1), 1 / 2, 0⟩]
    ⟨((0 : ℚ), (0 : ℚ), (1 : ℚ), (1 : ℚ)), some (1 / 2), 0, "person"⟩
    (by norm_num [collectAnns, pyInt, confidence_threshold])

/-- C8: on a duplicate-free taxonomy, (1) every line written by
`export_annotation_file` carries the current index of some exported
annotation's class name (an unknown class name is never written); (2) the
file content is unchanged if every stored `class_id` is replaced
arbitrarily — the stored id is never read; (3) the legacy exporter
`export_single_result` likewise writes the current index of the class name
whenever the name is in the taxonomy; and (4) it too ignores the stored
`class_id`. -/
theorem c8_export_class_id_recomputed (names : List String) (w h : ℚ) (anns : List Ann)
    (hnd : names.Nodup) :
    (∀ line ∈ exportLines names w h anns,
      ∃ a ∈ anns, List.findIdx? (fun nm => nm = a.cls) names = some line.class_id) ∧
    (∀ g : Int → Int,
      exportLines names w h (anns.map (fun a => { a with class_id := g a.class_id })) =
        exportLines names w h anns) ∧
    (∀ a ∈ anns, a.cls ∈ names →
      List.findIdx? (fun nm => nm = a.cls) names =
        some ((legacyLineOf names w h a).class_id)) ∧
    (∀ g : Int → Int,
      legacyExportLines names w h (anns.map (fun a => { a with class_id := g a.class_id })) =
        legacyExportLines names w h anns) := by
  refine ⟨?_, ?_, ?_, ?_⟩
  · intro line hline
    simp only [exportLines, List.mem_filterMap] at hline
    obtain ⟨a, ha, hsome⟩ := hline
    refine ⟨a, ha, ?_⟩
    unfold yoloLineOf at hsome
    by_cases hdeg : (clipCoords w h a.box).2.2.1 ≤ (clipCoords w h a.box).1 ∨
        (clipCoords w h a.box).2.2.2 ≤ (clipCoords w h a.box).2.1
    · simp [hdeg] at hsome
    · cases hb : buildNameToId names 0 a.cls with
      | none => simp [hdeg, hb] at hsome
      | some i =>
          simp only [hdeg, if_false, hb, ite_false] at hsome
          have hid : line.class_id = i := by
            cases hsome
            rfl
          have hfx := buildNameToId_eq_findIdx a.cls names hnd 0
          rw [hb] at hfx
          cases hfi : List.findIdx? (fun nm => nm = a.cls) names with
          | none => rw [hfi] at hfx; simp at hfx
          | some k =>
              rw [hfi] at hfx
              simp at hfx
              rw [hid, hfx]
  · intro g
    simp only [exportLines, List.filterMap_map]
    congr 1
  · intro a ha hmem
    have hs := findIdx_isSome_of_mem a.cls names hmem
    obtain ⟨k, hk⟩ := Option.isSome_iff_exists.mp hs
    rw [hk]
    simp [legacyLineOf, hk]
  · intro g
    simp only [legacyExportLines, List.map_map]
    congr 1

/-- Witness for `c8_export_class_id_recomputed`: an annotation with stale
stored `class_id = 99` and class name "dog" is exported with the current
index 1 of "dog". -/
theorem c8_witness :
    List.findIdx? (fun nm => nm = "dog") ["cat", "dog"] =
      some ((legacyLineOf ["cat", "dog"] 100 100
        ⟨((0 : ℚ), (0 : ℚ), (10 : ℚ), (10 : ℚ)), some (1 / 2), 99, "dog"⟩).class_id) :=
  (c8_export_class_id_recomputed ["cat", "dog"] 100 100
    [⟨((0 : ℚ), (0 : ℚ), (10 : ℚ), (10 : ℚ)), some (1 / 2), 99, "dog"⟩]
    (by decide)).2.2.1
    ⟨((0 : ℚ), (0 : ℚ), (10 : ℚ), (10 : ℚ)), some (1 / 2), 99, "dog"⟩
    (List.mem_singleton.mpr rfl) (by decide)

/-- C5 is FALSE as stated: a file holding syntactically valid JSON whose
`annotations` field is a list instead of an object makes `load` return
`False` only after it has already overwritten the in-memory state — here
the project name has become "evil" (and the directories, taxonomy, cursor,
image paths and annotation stores were likewise reassigned or reset) even
though the load failed. -/
theorem c5_counterexample :
    (loadProject
      ⟨none, .jstr "proj", .jstr "", .jstr "", .jstr "", .jarr [.jstr "person"],
        .jarr [.jarr [.jnum 255, .jnum 0, .jnum 0]], .jnum 0, .jarr [],
        fun _ => none, (∅ : Finset String)⟩
      "p.yap"
      (.content (.jobj [("name", .jstr "evil"), ("annotations", .jarr [.jnum 1])]))
      (fun _ => false) (fun _ => (0, 0, 0))).1 = false ∧
    (loadProject
      ⟨none, .jstr "proj", .jstr "", .jstr "", .jstr "", .jarr [.jstr "person"],
        .jarr [.jarr [.jnum 255, .jnum 0, .jnum 0]], .jnum 0, .jarr [],
        fun _ => none, (∅ : Finset String)⟩
      "p.yap"
      (.content (.jobj [("name", .jstr "evil"), ("annotations", .jarr [.jnum 1])]))
      (fun _ => false) (fun _ => (0, 0, 0))).2.name ≠ JVal.jstr "proj" := by
  constructor
  · rfl
  · show JVal.jstr "evil" ≠ JVal.jstr "proj"
    simp

/-- C5 (amended): `load` on a missing file leaves the whole state
unchanged, and on an unreadable file, a syntactically invalid JSON file, or
a valid JSON document whose top level is not an object it fails after
updating only the stored project path; but (see the counterexample) a valid
JSON object with a malformed field can fail after overwriting listed
in-memory state. -/
theorem c5_load_failure_paths (s : ProjectL) (p : String) (ex : String → Bool)
    (hsv : Nat → Int × Int × Int) :
    loadProject s p .missing ex hsv = (false, s) ∧
    loadProject s p .unreadable ex hsv = (false, { s with path := some p }) ∧
    loadProject s p .badJson ex hsv = (false, { s with path := some p }) ∧
    loadProject s p (.content .jnull) ex hsv = (false, { s with path := some p }) ∧
    (∀ b, loadProject s p (.content (.jbool b)) ex hsv = (false, { s with path := some p })) ∧
    (∀ n, loadProject s p (.content (.jnum n)) ex hsv = (false, { s with path := some p })) ∧
    (∀ str, loadProject s p (.content (.jstr str)) ex hsv = (false, { s with path := some p })) ∧
    (∀ xs, loadProject s p (.content (.jarr xs)) ex hsv = (false, { s with path := some p })) :=
  ⟨rfl, rfl, rfl, rfl, fun _ => rfl, fun _ => rfl, fun _ => rfl, fun _ => rfl⟩

/-- Helper: `generate_distinct_colors` always returns exactly `n` colors. -/
theorem generate_distinct_colors_length (n : Nat) (hsv : Nat → Int × Int × Int) :
    (generate_distinct_colors n hsv).length = n := by
  unfold generate_distinct_colors
  split_ifs with h0 h8
  · simp [h0]
  · simp only [List.length_take, baseColors]
    simp
    omega
  · simp

/-- Helper: the JSON length of an embedded color list is its length. -/
theorem colorsToJ_len (cs : List (Int × Int × Int)) : jlen (colorsToJ cs) = some cs.length := by
  simp [colorsToJ, jlen]

/-- Helper: the annotation-restoring loop never touches a path that is not
a key of the map. -/
theorem loadAnnots_frame (ex : String → Bool) :
    ∀ (entries : List (String × JVal)) (f : String → Option (Option Unit × JVal))
      (lab : Finset String) (q : String), q ∉ entries.map Prod.fst →
      (loadAnnots ex entries f lab).2.1 q = f q ∧
      ((q ∈ (loadAnnots ex entries f lab).2.2) ↔ q ∈ lab) := by
  intro entries
  induction entries with
  | nil => intro f lab q _; exact ⟨rfl, Iff.rfl⟩
  | cons e rest ih =>
      intro f lab q hq
      obtain ⟨q', a'⟩ := e
      have hq1 : q ∉ rest.map Prod.fst := by
        intro h; exact hq (by simp [h])
      have hq2 : q ≠ q' := by
        intro h; exact hq (by simp [h])
      simp only [loadAnnots]
      by_cases hex : ex q'
      · simp only [hex, if_true]
        by_cases htr : jtruthy a'
        · simp only [htr, if_true]
          cases hl : jlen a' with
          | none =>
              refine ⟨?_, Iff.rfl⟩
              simp [hq2]
          | some l =>
              have := ih (fun r => if r = q' then some (none, a') else f r)
                (if 0 < l then insert q' lab else lab) q hq1
              refine ⟨by rw [this.1]; simp [hq2], ?_⟩
              rw [this.2]
              by_cases hpos : 0 < l <;> simp [hpos, Finset.mem_insert, hq2]
        · simp only [htr, Bool.false_eq_true, if_false]
          have := ih (fun r => if r = q' then some (none, a') else f r) lab q hq1
          exact ⟨by rw [this.1]; simp [hq2], this.2⟩
      · simp only [hex, Bool.false_eq_true, if_false]
        exact ih f lab q hq1

/-- Helper: when every annotation value in the map is a JSON array (the
format `save` writes), the restoring loop completes without raising. -/
theorem loadAnnots_success (ex : String → Bool) :
    ∀ (entries : List (String × JVal)),
      (∀ e ∈ entries, ∃ l, e.2 = JVal.jarr l) →
      ∀ f lab, (loadAnnots ex entries f lab).1 = true := by
  intro entries
  induction entries with
  | nil => intro _ f lab; rfl
  | cons e rest ih =>
      intro hall f lab
      obtain ⟨q', a'⟩ := e
      obtain ⟨l, hl⟩ := hall (q', a') (List.mem_cons_self _ _)
      simp only at hl
      subst hl
      have hrest : ∀ e ∈ rest, ∃ l, e.2 = JVal.jarr l :=
        fun e he => hall e (List.mem_cons_of_mem _ he)
      simp only [loadAnnots]
      by_cases hex : ex q'
      · simp only [hex, if_true]
        by_cases htr : jtruthy (JVal.jarr l)
        · simp only [htr, if_true, jlen]
          exact ih hrest _ _
        · simp only [htr, Bool.false_eq_true, if_false]
          exact ih hrest _ _
      · simp only [hex, Bool.false_eq_true, if_false]
        exact ih hrest f lab

/-- Helper: a path whose image file no longer exists is never stored by the
restoring loop. -/
theorem loadAnnots_drop (ex : String → Bool) :
    ∀ (entries : List (String × JVal)) (f : String → Option (Option Unit × JVal))
      (lab : Finset String) (q : String), ex q = false →
      (loadAnnots ex entries f lab).2.1 q = f q := by
  intro entries
  induction entries with
  | nil => intro f lab q _; rfl
  | cons e rest ih =>
      intro f lab q hexq
      obtain ⟨q', a'⟩ := e
      simp only [loadAnnots]
      by_cases hex : ex q'
      · have hq2 : q ≠ q' := by
          intro h
          rw [h, hex] at hexq
          simp at hexq
        simp only [hex, if_true]
        by_cases htr : jtruthy a'
        · simp only [htr, if_true]
          cases hl : jlen a' with
          | none => simp [hq2]
          | some l =>
              rw [ih (fun r => if r = q' then some (none, a') else f r) _ q hexq]
              simp [hq2]
        · simp only [htr, Bool.false_eq_true, if_false]
          rw [ih (fun r => if r = q' then some (none, a') else f r) lab q hexq]
          simp [hq2]
      · simp only [hex, Bool.false_eq_true, if_false]
        exact ih f lab q hexq

/-- Helper: an entry whose image file exists is retained with image handle
`none` and its raw annotation value. -/
theorem loadAnnots_point (ex : String → Bool) :
    ∀ (entries : List (String × JVal)) (f : String → Option (Option Unit × JVal))
      (lab : Finset String) (q : String) (a : JVal),
      (entries.map Prod.fst).Nodup → (q, a) ∈ entries → ex q = true →
      (∀ e ∈ entries, ∃ l, e.2 = JVal.jarr l) →
      (loadAnnots ex entries f lab).2.1 q = some (none, a) := by
  intro entries
  induction entries with
  | nil => intro f lab q a _ hmem; simp at hmem
  | cons e rest ih =>
      intro f lab q a hnd hmem hexq hall
      obtain ⟨q', a'⟩ := e
      have hndr : (rest.map Prod.fst).Nodup := (List.nodup_cons.mp (by simpa using hnd)).2
      have hq'r : q' ∉ rest.map Prod.fst := (List.nodup_cons.mp (by simpa using hnd)).1
      rcases List.mem_cons.mp hmem with hhead | htail
      · have hq : q = q' := by cases hhead; rfl
        have ha : a = a' := by cases hhead; rfl
        subst hq
        subst ha
        obtain ⟨l, hl⟩ := hall (q, a) (List.mem_cons_self _ _)
        simp only at hl
        subst hl
        simp only [loadAnnots, hexq, if_true]
        by_cases htr : jtruthy (JVal.jarr l)
        · simp only [htr, if_true, jlen]
          have := loadAnnots_frame ex rest
            (fun r => if r = q then some (none, JVal.jarr l) else f r)
            (if 0 < l.length then insert q lab else lab) q hq'r
          rw [this.1]
          simp
        · simp only [htr, Bool.false_eq_true, if_false]
          have := loadAnnots_frame ex rest
            (fun r => if r = q then some (none, JVal.jarr l) else f r) lab q hq'r
          rw [this.1]
          simp
      · have hqne : q ≠ q' := by
          intro h
          subst h
          exact hq'r (by simpa using List.mem_map_of_mem Prod.fst htail)
        have hallr : ∀ e ∈ rest, ∃ l, e.2 = JVal.jarr l :=
          fun e he => hall e (List.mem_cons_of_mem _ he)
        obtain ⟨l', hl'⟩ := hall (q', a') (List.mem_cons_self _ _)
        simp only at hl'
        subst hl'
        simp only [loadAnnots]
        by_cases hex : ex q'
        · simp only [hex, if_true]
          by_cases htr : jtruthy (JVal.jarr l')
          · simp only [htr, if_true, jlen]
            exact ih _ _ q a hndr htail hexq hallr
          · simp only [htr, Bool.false_eq_true, if_false]
            exact ih _ _ q a hndr htail hexq hallr
        · simp only [hex, Bool.false_eq_true, if_false]
          exact ih f lab q a hndr htail hexq hallr

/-- Helper: a path joins the labeled cache during the restoring loop iff
some entry for it has an existing image file and a non-empty array. -/
theorem loadAnnots_labeled (ex : String → Bool) :
    ∀ (entries : List (String × JVal)) (f : String → Option (Option Unit × JVal))
      (lab : Finset String) (q : String),
      (∀ e ∈ entries, ∃ l, e.2 = JVal.jarr l) →
      (q ∈ (loadAnnots ex entries f lab).2.2 ↔
        q ∈ lab ∨ ∃ l, (q, JVal.jarr l) ∈ entries ∧ ex q = true ∧ l ≠ []) := by
  intro entries
  induction entries with
  | nil =>
      intro f lab q _
      simp [loadAnnots]
  | cons e rest ih =>
      intro f lab q hall
      obtain ⟨q', a'⟩ := e
      obtain ⟨l', hl'⟩ := hall (q', a') (List.mem_cons_self _ _)
      simp only at hl'
      subst hl'
      have hallr : ∀ e ∈ rest, ∃ l, e.2 = JVal.jarr l :=
        fun e he => hall e (List.mem_cons_of_mem _ he)
      simp only [loadAnnots]
      by_cases hex : ex q'
      · by_cases hne : l' = []
        · subst hne
          simp only [hex, if_true, jtruthy, List.isEmpty_nil, Bool.not_true,
            Bool.false_eq_true, if_false]
          rw [ih _ lab q hallr]
          constructor
          · rintro (h | ⟨l, hmem, hexq, hlne⟩)
            · exact Or.inl h
            · exact Or.inr ⟨l, List.mem_cons_of_mem _ hmem, hexq, hlne⟩
          · rintro (h | ⟨l, hmem, hexq, hlne⟩)
            · exact Or.inl h
            · rcases List.mem_cons.mp hmem with hh | ht
              · exfalso
                apply hlne
                cases hh
                rfl
              · exact Or.inr ⟨l, ht, hexq, hlne⟩
        · have htr : jtruthy (JVal.jarr l') = true := by
            simp [jtruthy, hne]
          simp only [hex, if_true, htr, jlen]
          have hpos : 0 < l'.length := List.length_pos.mpr hne
          simp only [hpos, if_true]
          rw [ih _ _ q hallr]
          simp only [Finset.mem_insert]
          constructor
          · rintro ((h | h) | ⟨l, hmem, hexq, hlne⟩)
            · subst h
              exact Or.inr ⟨l', List.mem_cons_self _ _, hex, hne⟩
            · exact Or.inl h
            · exact Or.inr ⟨l, List.mem_cons_of_mem _ hmem, hexq, hlne⟩
          · rintro (h | ⟨l, hmem, hexq, hlne⟩)
            · exact Or.inl (Or.inr h)
            · rcases List.mem_cons.mp hmem with hh | ht
              · have hqq : q = q' := by cases hh; rfl
                exact Or.inl (Or.inl hqq)
              · exact Or.inr ⟨l, ht, hexq, hlne⟩
      · simp only [hex, Bool.false_eq_true, if_false]
        rw [ih f lab q hallr]
        constructor
        · rintro (h | ⟨l, hmem, hexq, hlne⟩)
          · exact Or.inl h
          · exact Or.inr ⟨l, List.mem_cons_of_mem _ hmem, hexq, hlne⟩
        · rintro (h | ⟨l, hmem, hexq, hlne⟩)
          · exact Or.inl h
          · rcases List.mem_cons.mp hmem with hh | ht
            · exfalso
              cases hh
              simp_all
            · exact Or.inr ⟨l, ht, hexq, hlne⟩

/-- Helper: the value of `load` on a well-formed JSON object, as one
equation: success mirrors the annotation fold, and the color list is
regenerated exactly when its length differs from the class-name count. -/
theorem loadProject_obj_eq (s : ProjectL) (p : String) (fs : List (String × JVal))
    (ex : String → Bool) (hsv : Nat → Int × Int × Int) (entries : List (String × JVal))
    (n m : Nat)
    (hobj : jget fs "annotations" (.jobj []) = .jobj entries)
    (hnames : jlen (jget fs "class_names" (.jarr [])) = some n)
    (hcols : jlen (jget fs "class_colors"
      (colorsToJ (generate_distinct_colors n hsv))) = some m) :
    loadProject s p (.content (.jobj fs)) ex hsv =
      ((loadAnnots ex entries (fun _ => none) ∅).1,
       { path := some p
         name := jget fs "name" (.jstr "未命名项目")
         image_dir := jget fs "image_dir" (.jstr "")
         model_path := jget fs "model_path" (.jstr "")
         output_dir := jget fs "output_dir" (.jstr "")
         class_names := jget fs "class_names" (.jarr [])
         class_colors := if m ≠ n then colorsToJ (generate_distinct_colors n hsv)
           else jget fs "class_colors" (colorsToJ (generate_distinct_colors n hsv))
         last_processed_index := jget fs "last_processed_index" (.jnum 0)
         image_paths := jget fs "image_paths" (.jarr [])
         processed_images := (loadAnnots ex entries (fun _ => none) ∅).2.1
         labeled_images := (loadAnnots ex entries (fun _ => none) ∅).2.2 }) := by
  simp only [loadProject]
  split
  · next heq => rw [hnames] at heq; cases heq
  · next n' heq =>
      rw [hnames] at heq
      cases heq
      split
      · next heq2 => rw [hcols] at heq2; cases heq2
      · next m' heq2 =>
          rw [hcols] at heq2
          cases heq2
          split
          · next entries' heq3 =>
              rw [hobj] at heq3
              cases heq3
              split_ifs <;> rfl
          · next hne3 heq3 =>
              rw [hobj] at heq3
              exact absurd rfl (heq3 entries)

/-- C9: on a well-formed project document (the `annotations` field is an
object whose values are arrays — the format `save` writes — with distinct
keys, and the `class_names` / `class_colors` fields have a length), `load`
succeeds; every annotation entry whose image file still exists is retained
with image handle `none` and its annotation list; every entry whose file no
longer exists is silently dropped; the labeled cache holds exactly the
retained paths with non-empty annotation lists; and the final color list's
JSON length equals the class-name count (regenerated on mismatch). -/
theorem c9_load_success_semantics (s : ProjectL) (p : String) (fs : List (String × JVal))
    (ex : String → Bool) (hsv : Nat → Int × Int × Int) (entries : List (String × JVal))
    (n m : Nat)
    (hobj : jget fs "annotations" (.jobj []) = .jobj entries)
    (hall : ∀ e ∈ entries, ∃ l, e.2 = JVal.jarr l)
    (hnd : (entries.map Prod.fst).Nodup)
    (hnames : jlen (jget fs "class_names" (.jarr [])) = some n)
    (hcols : jlen (jget fs "class_colors"
      (colorsToJ (generate_distinct_colors n hsv))) = some m) :
    (loadProject s p (.content (.jobj fs)) ex hsv).1 = true ∧
    (∀ q a, (q, a) ∈ entries → ex q = true →
      (loadProject s p (.content (.jobj fs)) ex hsv).2.processed_images q = some (none, a)) ∧
    (∀ q, ex q = false →
      (loadProject s p (.content (.jobj fs)) ex hsv).2.processed_images q = none) ∧
    (∀ q, q ∉ entries.map Prod.fst →
      (loadProject s p (.content (.jobj fs)) ex hsv).2.processed_images q = none) ∧
    (∀ q, q ∈ (loadProject s p (.content (.jobj fs)) ex hsv).2.labeled_images ↔
      ∃ l, (q, JVal.jarr l) ∈ entries ∧ ex q = true ∧ l ≠ []) ∧
    jlen (loadProject s p (.content (.jobj fs)) ex hsv).2.class_names = some n ∧
    jlen (loadProject s p (.content (.jobj fs)) ex hsv).2.class_colors = some n := by
  rw [loadProject_obj_eq s p fs ex hsv entries n m hobj hnames hcols]
  refine ⟨loadAnnots_success ex entries hall _ _, ?_, ?_, ?_, ?_, ?_, ?_⟩
  · intro q a hmem hexq
    exact loadAnnots_point ex entries (fun _ => none) ∅ q a hnd hmem hexq hall
  · intro q hexq
    exact loadAnnots_drop ex entries (fun _ => none) ∅ q hexq
  · intro q hq
    exact (loadAnnots_frame ex entries (fun _ => none) ∅ q hq).1
  · intro q
    rw [loadAnnots_labeled ex entries (fun _ => none) ∅ q hall]
    simp
  · exact hnames
  · by_cases hmn : m = n
    · subst hmn
      simp only [ne_eq, not_true_eq_false, if_neg, ite_false]
      simpa using hcols
    · simp only [ne_eq, hmn, not_false_eq_true, ite_true]
      rw [colorsToJ_len, generate_distinct_colors_length]

/-- Witness for `c9_load_success_semantics`: a two-entry annotation map in
which only `a.jpg` still exists on disk — the load succeeds, `a.jpg` is
retained with image handle `none`, and `gone.jpg` is dropped. -/
theorem c9_witness :
    (loadProject
      ⟨none, .jstr "x", .jstr "", .jstr "", .jstr "", .jarr [], .jarr [], .jnum 0, .jarr [],
        fun _ => none, (∅ : Finset String)⟩
      "p.yap"
      (.content (.jobj [("class_names", .jarr [.jstr "person"]),
        ("class_colors", .jarr [.jarr [.jnum 255, .jnum 0, .jnum 0]]),
        ("annotations", .jobj [("a.jpg", .jarr [.jnull]), ("gone.jpg", .jarr [.jnull])])]))
      (fun q => q == "a.jpg") (fun _ => (0, 0, 0))).1 = true ∧
    (loadProject
      ⟨none, .jstr "x", .jstr "", .jstr "", .jstr "", .jarr [], .jarr [], .jnum 0, .jarr [],
        fun _ => none, (∅ : Finset String)⟩
      "p.yap"
      (.content (.jobj [("class_names", .jarr [.jstr "person"]),
        ("class_colors", .jarr [.jarr [.jnum 255, .jnum 0, .jnum 0]]),
        ("annotations", .jobj [("a.jpg", .jarr [.jnull]), ("gone.jpg", .jarr [.jnull])])]))
      (fun q => q == "a.jpg") (fun _ => (0, 0, 0))).2.processed_images "a.jpg" =
        some (none, .jarr [.jnull]) ∧
    (loadProject
      ⟨none, .jstr "x", .jstr "", .jstr "", .jstr "", .jarr [], .jarr [], .jnum 0, .jarr [],
        fun _ => none, (∅ : Finset String)⟩
      "p.yap"
      (.content (.jobj [("class_names", .jarr [.jstr "person"]),
        ("class_colors", .jarr [.jarr [.jnum 255, .jnum 0, .jnum 0]]),
        ("annotations", .jobj [("a.jpg", .jarr [.jnull]), ("gone.jpg", .jarr [.jnull])])]))
      (fun q => q == "a.jpg") (fun _ => (0, 0, 0))).2.processed_images "gone.jpg" = none := by
  have h := c9_load_success_semantics
    ⟨none, .jstr "x", .jstr "", .jstr "", .jstr "", .jarr [], .jarr [], .jnum 0, .jarr [],
      fun _ => none, (∅ : Finset String)⟩
    "p.yap"
    [("class_names", .jarr [.jstr "person"]),
      ("class_colors", .jarr [.jarr [.jnum 255, .jnum 0, .jnum 0]]),
      ("annotations", .jobj [("a.jpg", .jarr [.jnull]), ("gone.jpg", .jarr [.jnull])])]
    (fun q => q == "a.jpg") (fun _ => (0, 0, 0))
    [("a.jpg", .jarr [.jnull]), ("gone.jpg", .jarr [.jnull])] 1 1
    rfl
    (by
      intro e he
      simp only [List.mem_cons, List.not_mem_nil, or_false] at he
      rcases he with rfl | rfl
      · exact ⟨[JVal.jnull], rfl⟩
      · exact ⟨[JVal.jnull], rfl⟩)
    (by decide)
    rfl
    rfl
  exact ⟨h.1, h.2.1 "a.jpg" (.jarr [.jnull]) (by simp) rfl, h.2.2.1 "gone.jpg" rfl⟩

end AutoLabel
